import Mathlib

/-!
# Entity serialization: a verification development

A shallow embedding of `entities.hpp`, `serializable.hpp`, `entity_serializer.hpp`
and the bundle of `main.cpp`.

Modelling conventions.

* A byte (`char`, `uint8_t`) is a `Fin 256`; a `uint32_t` is a `Fin 4294967296`.
  `size_t` is 8 bytes wide and values of that type are natural numbers reduced
  modulo `2^64` where the source computes them.  `int32_t` results are integers
  obtained through `to_int32` (the modular conversion of `static_cast<int32_t>`).
* `reinterpret_cast<const char*>(&x)` followed by a copy of `sizeof(x)` bytes is
  the little-endian image `toBytesLE (sizeof x) x`.
* A `std::vector<char>` memory sink is a `List Byte`; `insert(end(), p, p + n)`
  appends the first `n` bytes at `p`.
* A `std::ofstream` is the list of bytes written to it so far (no I/O failure).
* A `std::ifstream` is the list of bytes still unread together with its
  `good` flag.
* Writes into the fixed array `char name[32]` are checked: an index outside the
  array yields `none`.
-/

namespace EntitySerialization

/-! ## Machine types -/

/-- An 8-bit byte: `char` and `uint8_t`. -/
abbrev Byte := Fin 256

/-- The type `uint8_t`. -/
abbrev uint8_t := Fin 256

/-- The type `uint32_t`. -/
abbrev uint32_t := Fin 4294967296

/-- Conversion `static_cast<uint32_t>(n)` of an unsigned value. -/
def to_uint32 (n : Nat) : uint32_t := ⟨n % 4294967296, Nat.mod_lt n (by decide)⟩

/-- Truncation of an unsigned value to one byte. -/
def to_byte (n : Nat) : Byte := ⟨n % 256, Nat.mod_lt n (by decide)⟩

/-- Conversion `static_cast<int32_t>(n)` of an unsigned value: reduction modulo
`2^32` into the range `[-2^31, 2^31)`. -/
def to_int32 (n : Nat) : Int :=
  if n % 4294967296 < 2147483648 then ((n % 4294967296 : Nat) : Int)
  else ((n % 4294967296 : Nat) : Int) - 4294967296

/-- Reduction of a natural number to the range of `size_t` (64 bits). -/
def to_size_t (n : Nat) : Nat := n % 18446744073709551616

/-- The `k` low-order bytes of `n`, least significant first: the object
representation of a `k`-byte unsigned integer on a little-endian machine. -/
def toBytesLE : Nat → Nat → List Byte
  | 0, _ => []
  | k + 1, n => to_byte n :: toBytesLE k (n / 256)

/-- The unsigned integer whose little-endian object representation is `bs`. -/
def fromBytesLE : List Byte → Nat
  | [] => 0
  | b :: bs => b.val + 256 * fromBytesLE bs

/-- The bytes of a string literal. -/
def bytesOf (s : String) : List Byte := s.toList.map (fun c => to_byte c.toNat)

/-! ## Byte sinks and sources -/

/-- The memory sink `std::vector<char>`. -/
abbrev Buffer := List Byte

/-- `buffer.insert(buffer.end(), p, p + n)`, where `src` are the bytes at `p`. -/
def Buffer.insert_end (buffer : Buffer) (src : List Byte) (n : Nat) : Buffer :=
  buffer ++ src.take n

/-- The file sink `std::ofstream`: the bytes written so far. -/
structure ofstream where
  contents : List Byte
deriving DecidableEq, Repr

/-- `fh.write(p, n)`, where `src` are the bytes at `p`. -/
def ofstream.write (fh : ofstream) (src : List Byte) (n : Nat) : ofstream :=
  ⟨fh.contents ++ src.take n⟩

/-- The file source `std::ifstream`: the unread bytes and the stream's state. -/
structure ifstream where
  data : List Byte
  good : Bool
deriving DecidableEq, Repr

/-- The bytes `dst` of a destination after `src` has been stored at its start. -/
def overwrite (dst src : List Byte) : List Byte :=
  (src ++ dst.drop src.length).take dst.length

/-- `fh.read(p, n)`: the stream after the call and the bytes extracted.  A
stream that is not good extracts nothing; a stream holding fewer than `n`
bytes extracts what it has and is no longer good. -/
def ifstream.read (fh : ifstream) (n : Nat) : ifstream × List Byte :=
  if fh.good then
    if n ≤ fh.data.length then (⟨fh.data.drop n, true⟩, fh.data.take n)
    else (⟨[], false⟩, fh.data)
  else (fh, [])

/-! ## `entities.hpp`: `ObjectA` -/

/-- The record `ObjectA` of `entities.hpp`. -/
structure ObjectA where
  id : uint8_t
  health : uint8_t
  name : List Byte
deriving DecidableEq, Repr

/-- A default-constructed `ObjectA`. -/
def ObjectA.default : ObjectA := ⟨0, 0, []⟩

/-- `ObjectA::store_to_buffer`, memory-sink branch (`std::vector<char>`). -/
def ObjectA.store_to_buffer (self : ObjectA) (buffer : Buffer) : Buffer × Int :=
  let name_len := to_size_t self.name.length
  let bin_id := [self.id]
  let bin_health := [self.health]
  let bin_name_len := toBytesLE 8 name_len
  let bin_name := self.name
  let buffer := buffer.insert_end bin_id 1
  let buffer := buffer.insert_end bin_health 1
  let buffer := buffer.insert_end bin_name_len 8
  let buffer := buffer.insert_end bin_name name_len
  (buffer, to_int32 (to_size_t (1 + 1 + 8 + name_len)))

/-- `ObjectA::store_to_buffer`, file-sink branch (`std::ofstream`). -/
def ObjectA.store_to_buffer_ofstream (self : ObjectA) (buffer : ofstream) : ofstream × Int :=
  let buffer := buffer.write [self.id] 1
  let buffer := buffer.write [self.health] 1
  let name_len := to_size_t self.name.length
  let buffer := buffer.write (toBytesLE 8 name_len) 8
  let buffer := buffer.write self.name name_len
  (buffer, to_int32 (to_size_t (1 + 1 + 8 + name_len)))

/-- The loop `for (auto&& entity : entity_vec) entity.store_to_buffer(bindata.buffer)`
of the writer over a vector of `ObjectA`, on the fresh buffer of a section. -/
def ObjectA.payload (entity_vec : List ObjectA) : Buffer :=
  entity_vec.foldl (fun buffer entity => (entity.store_to_buffer buffer).1) []

/-- `ObjectA::load_from_buffer` on a file source.  `name.reserve` changes the
capacity of `name`, not its size, so the bytes read through `name.data()` land
in the string's storage and only those below the current size are part of its
value.  The final self-assignment from `{ id, health, name }` keeps the fields
just read. -/
def ObjectA.load_from_buffer (self : ObjectA) (buffer : ifstream) :
    ObjectA × ifstream × Int :=
  let r := buffer.read 1
  let id := ((overwrite [self.id] r.2).headD self.id)
  let r := r.1.read 1
  let health := ((overwrite [self.health] r.2).headD self.health)
  let r := r.1.read 8
  let name_len := fromBytesLE (overwrite (toBytesLE 8 0) r.2)
  let r := r.1.read name_len
  let name := overwrite self.name r.2
  (⟨id, health, name⟩, r.1, to_int32 (to_size_t (1 + 1 + 8 + name_len)))

/-- `ObjectA::operator==`. -/
def ObjectA.eq (self other : ObjectA) : Bool :=
  self.id == other.id && self.health == other.health && self.name == other.name

/-! ## `serializable.hpp`: the generic path for trivially copyable records -/

/-- `Serializable<TEntity>::store_to_buffer`, memory-sink branch.  `data` is the
object representation of `self` (the result of `operator const char*`), so
`sizeof(self)` is its length. -/
def Serializable.store_to_buffer (data : List Byte) (buffer : Buffer) : Buffer × Int :=
  let byte_size := to_uint32 data.length
  (buffer.insert_end data byte_size.val, to_int32 byte_size.val)

/-- `Serializable<TEntity>::store_to_buffer`, file-sink branch. -/
def Serializable.store_to_buffer_ofstream (data : List Byte) (buffer : ofstream) :
    ofstream × Int :=
  let byte_size := to_uint32 data.length
  (buffer.write data byte_size.val, to_int32 byte_size.val)

/-- `Serializable<TEntity>::load_from_buffer`.  The parameter is declared
`const auto& buffer`, so `buffer_t = std::remove_reference_t<decltype(buffer)>`
is const-qualified and is neither `std::vector<char>` nor `std::ifstream`: both
`if constexpr` branches are discarded whatever the argument, and the member
function, itself `const`, only returns `sizeof(self)`.  `data` is the object
representation of `self`; the result is the object representation after the
call, the source after the call and the returned count. -/
def Serializable.load_from_buffer {buffer_t : Type} (data : List Byte) (buffer : buffer_t) :
    List Byte × buffer_t × Int :=
  let byte_size := to_int32 data.length
  (data, buffer, byte_size)

/-! ## `entities.hpp`: `ObjectB` and the header records -/

/-- The aggregate `Coordinates`: two `float` fields, held as their IEEE-754
binary32 bit patterns. -/
structure Coordinates where
  x : uint32_t
  y : uint32_t
deriving DecidableEq, Repr

/-- The trivially copyable record `ObjectB`. -/
structure ObjectB where
  id : uint32_t
  pos : Coordinates
deriving DecidableEq, Repr

/-- The object representation of an `ObjectB`: `id`, `pos.x`, `pos.y`, four
bytes each, no padding (the base class is empty). -/
def ObjectB.object_bytes (self : ObjectB) : List Byte :=
  toBytesLE 4 self.id.val ++ toBytesLE 4 self.pos.x.val ++ toBytesLE 4 self.pos.y.val

/-- `ObjectB::store_to_buffer` (inherited from `Serializable<ObjectB>`). -/
def ObjectB.store_to_buffer (self : ObjectB) (buffer : Buffer) : Buffer × Int :=
  Serializable.store_to_buffer self.object_bytes buffer

/-- The `ObjectB` whose object representation is the 12 bytes `data`. -/
def ObjectB.of_object_bytes (data : List Byte) : ObjectB :=
  ⟨to_uint32 (fromBytesLE (data.take 4)),
    ⟨to_uint32 (fromBytesLE ((data.drop 4).take 4)),
      to_uint32 (fromBytesLE ((data.drop 8).take 4))⟩⟩

/-- A default-constructed `ObjectB`. -/
def ObjectB.default : ObjectB := ⟨0, ⟨0, 0⟩⟩

/-- `ObjectB::load_from_buffer` on a file source (inherited from
`Serializable<ObjectB>`). -/
def ObjectB.load_from_buffer (self : ObjectB) (buffer : ifstream) :
    ObjectB × ifstream × Int :=
  let r := Serializable.load_from_buffer self.object_bytes buffer
  (ObjectB.of_object_bytes r.1, r.2.1, r.2.2)

/-- The array type `char[32]`. -/
abbrev CharArray32 := { l : List Byte // l.length = 32 }

/-- The zero-initialised array `char name[32] = { 0 }`. -/
def CharArray32.zero : CharArray32 := ⟨List.replicate 32 0, by simp⟩

/-- The checked store `a[i] = c`: `none` when `i` is outside the array. -/
def CharArray32.write (a : CharArray32) (i : Nat) (c : Byte) : Option CharArray32 :=
  if i < 32 then some ⟨a.val.set i c, by simp [a.property]⟩ else none

/-- `std::memcpy(dst, src, n)` into a `char[32]`, byte by byte: `none` when a
byte is read past the end of `src` or stored outside `dst`. -/
def memcpy (dst : CharArray32) (src : List Byte) : Nat → Option CharArray32
  | 0 => some dst
  | n + 1 => do
    let dst ← memcpy dst src n
    let c ← src[n]?
    dst.write n c

/-- The header record `detail::EntityProperties`. -/
structure EntityProperties where
  count : uint32_t
  size : uint32_t
  name : CharArray32
deriving DecidableEq

/-- A default-constructed `EntityProperties`. -/
def EntityProperties.default : EntityProperties := ⟨0, 0, CharArray32.zero⟩

/-- The object representation of an `EntityProperties`: `count`, `size`, `name`
at offsets 0, 4 and 8 (the base class is empty and no field needs padding). -/
def EntityProperties.object_bytes (self : EntityProperties) : List Byte :=
  toBytesLE 4 self.count.val ++ toBytesLE 4 self.size.val ++ self.name.val

/-- `EntityProperties::store_to_buffer` on a file sink (inherited from
`Serializable<EntityProperties>`). -/
def EntityProperties.store_to_buffer (self : EntityProperties) (buffer : ofstream) :
    ofstream × Int :=
  Serializable.store_to_buffer_ofstream self.object_bytes buffer

/-- The pair `detail::EntityBinFile`: a section's descriptor and its payload. -/
structure EntityBinFile where
  info : EntityProperties
  buffer : Buffer
deriving DecidableEq

/-- A default-constructed `EntityBinFile`. -/
def EntityBinFile.default : EntityBinFile := ⟨EntityProperties.default, []⟩

/-! ## `entity_serializer.hpp`: the writer -/

/-- What the writer's template uses of a record type: the type itself, the
string `typeid(value_type).name()`, the constant `sizeof(std::vector<value_type>)`
and the type's `store_to_buffer` on a memory sink. -/
structure EntityType where
  value_type : Type
  type_name : List Byte
  sizeof_vector : Nat
  store_to_buffer : value_type → Buffer → Buffer × Int

/-- One argument of the writer: a `std::vector<value_type>`. -/
structure EntityVector where
  type : EntityType
  elems : List type.value_type

/-- The lambda `process_entity_vectors`, applied to one container; the result is
the member `m_binfile_data` after the call. -/
def process_entity_vectors (m_binfile_data : List EntityBinFile) (entity_vec : EntityVector) :
    Option (List EntityBinFile) :=
  if entity_vec.elems.isEmpty then some m_binfile_data
  else do
    let type_name := entity_vec.type.type_name
    let type_name := if type_name.length > 30 then type_name.take 30 else type_name
    let bindata := EntityBinFile.default
    let name ← memcpy bindata.info.name type_name type_name.length
    let name ← name.write type_name.length 0
    let size := to_uint32 entity_vec.type.sizeof_vector
    let count := to_uint32 entity_vec.elems.length
    let buffer := entity_vec.elems.foldl
      (fun buffer entity => (entity_vec.type.store_to_buffer entity buffer).1) bindata.buffer
    some (m_binfile_data ++ [⟨⟨count, size, name⟩, buffer⟩])

/-- The state left by the constructor of `EntitySerializer`: the member
`m_binfile_data` and the contents of the output file. -/
structure EntitySerializer where
  m_binfile_data : List EntityBinFile
  file : List Byte

/-- The constructor `EntitySerializer::EntitySerializer(entity_containers...)`. -/
def EntitySerializer.ctor (entity_containers : List EntityVector) : Option EntitySerializer := do
  let entity_list_count := to_size_t entity_containers.length
  let m_binfile_data ← entity_containers.foldlM process_entity_vectors []
  let fh_out : ofstream := ⟨[]⟩
  let fh_out := fh_out.write (toBytesLE 8 entity_list_count) 8
  let fh_out := m_binfile_data.foldl (fun fh ei => (ei.info.store_to_buffer fh).1) fh_out
  let fh_out := m_binfile_data.foldl (fun fh ei => fh.write ei.buffer ei.buffer.length) fh_out
  some ⟨m_binfile_data, fh_out.contents⟩

/-! ## `main.cpp`: the example bundle -/

/-- The record type `ObjectA` as the writer sees it, for a given
`typeid(ObjectA).name()` and `sizeof(std::vector<ObjectA>)`. -/
def ObjectA.entity_type (type_name : List Byte) (sizeof_vector : Nat) : EntityType :=
  ⟨ObjectA, type_name, sizeof_vector, ObjectA.store_to_buffer⟩

/-- The record type `ObjectB` as the writer sees it. -/
def ObjectB.entity_type (type_name : List Byte) (sizeof_vector : Nat) : EntityType :=
  ⟨ObjectB, type_name, sizeof_vector, ObjectB.store_to_buffer⟩

/-- The size of a `std::vector` object where `size_t` and pointers are 8 bytes
wide: three pointers. -/
def sizeof_std_vector : Nat := 24

/-- The vector `entities_a` of `main.cpp`. -/
def entities_a : List ObjectA :=
  [⟨1, 100, bytesOf "long variable length name"⟩, ⟨55, 19, bytesOf "shorter varlen name"⟩]

/-- The vector `entities_b` of `main.cpp`; the `float` literals `100.0f`, `0.1f`,
`1.0f`, `12345.6f` and `666.6f` are given by their bit patterns. -/
def entities_b : List ObjectB :=
  [⟨11, ⟨1120403456, 1036831949⟩⟩, ⟨22, ⟨1065353216, 1178658406⟩⟩,
   ⟨33, ⟨1143383654, 1143383654⟩⟩]

/-- The bundle `{ entities_a, entities_b }` handed to the writer in `main.cpp`,
with the type tags under which the specification lists the two sections. -/
def main_bundle : List EntityVector :=
  [⟨ObjectA.entity_type (bytesOf "ObjectA") sizeof_std_vector, entities_a⟩,
   ⟨ObjectB.entity_type (bytesOf "ObjectB") sizeof_std_vector, entities_b⟩]

/-! ## Further inputs -/

/-- The first record of `entities_a` in `main.cpp`. -/
def main_object_a : ObjectA := ⟨1, 100, bytesOf "long variable length name"⟩

/-- A bundle of one empty and one non-empty sequence: an empty
`std::vector<ObjectA>` followed by `entities_b`. -/
def bundle_with_empty_sequence : List EntityVector :=
  [⟨ObjectA.entity_type (bytesOf "ObjectA") sizeof_std_vector, []⟩,
   ⟨ObjectB.entity_type (bytesOf "ObjectB") sizeof_std_vector, entities_b⟩]

/-- An `ObjectA` whose name is `2^31 - 10` bytes long. -/
def object_a_with_long_name : ObjectA := ⟨0, 0, List.replicate 2147483638 0⟩

/-- An `ObjectA` whose name is the three bytes of `abc`. -/
def object_a_with_short_name : ObjectA := ⟨7, 9, bytesOf "abc"⟩

/-- A bundle whose only sequence is an empty `std::vector<ObjectA>`. -/
def bundle_of_one_empty_sequence : List EntityVector :=
  [⟨ObjectA.entity_type (bytesOf "ObjectA") sizeof_std_vector, []⟩]

/-- The first record of `entities_b` in `main.cpp`. -/
def main_object_b : ObjectB := ⟨11, ⟨1120403456, 1036831949⟩⟩

/-- The tag of a record type `ObjectA` declared in a namespace
`game_world_entities_serialization`, as `typeid` names it under the Itanium ABI. -/
def long_tag_a : List Byte := bytesOf "N33game_world_entities_serialization7ObjectAE"

/-- The tag of a record type `ObjectB` declared in the same namespace. -/
def long_tag_b : List Byte := bytesOf "N33game_world_entities_serialization7ObjectBE"

/-- A bundle of two non-empty sequences of distinct record types whose tags are
longer than 30 bytes. -/
def bundle_with_long_tags : List EntityVector :=
  [⟨ObjectA.entity_type long_tag_a sizeof_std_vector, entities_a⟩,
   ⟨ObjectB.entity_type long_tag_b sizeof_std_vector, entities_b⟩]

/-! ## Specification-side definitions -/

/-- The `name` field the specification prescribes for a type tag `t`: the first
`min (len t) 30` bytes of `t`, then null bytes up to 32. -/
def truncated_name (t : List Byte) : CharArray32 :=
  ⟨t.take 30 ++ List.replicate (32 - min t.length 30) 0, by
    simp only [List.length_append, List.length_take, List.length_replicate]; omega⟩

/-- The non-empty sequences of a bundle, in input order. -/
def non_empty_sequences (bundle : List EntityVector) : List EntityVector :=
  bundle.filter (fun v => !v.elems.isEmpty)

/-- The bytes one call of a record type's `store_to_buffer` appends to an empty
memory sink. -/
def encoded (ty : EntityType) (e : ty.value_type) : List Byte :=
  (ty.store_to_buffer e []).1

/-- The concatenation, in iteration order, of the encodings of a sequence's
records. -/
def concatenated_records (v : EntityVector) : List Byte :=
  (v.elems.map (encoded v.type)).flatten

/-- A record type whose `store_to_buffer` only appends to its memory sink. -/
def AppendOnly (ty : EntityType) : Prop :=
  ∀ (e : ty.value_type) (buffer : Buffer),
    (ty.store_to_buffer e buffer).1 = buffer ++ (ty.store_to_buffer e []).1

/-- The section the writer builds for a non-empty container. -/
def section_of (v : EntityVector) : EntityBinFile :=
  ⟨⟨to_uint32 v.elems.length, to_uint32 v.type.sizeof_vector,
      truncated_name v.type.type_name⟩,
    v.elems.foldl (fun buffer entity => (v.type.store_to_buffer entity buffer).1) []⟩

/-! ## Lemmas on the machine types -/

theorem toBytesLE_length (k n : Nat) : (toBytesLE k n).length = k := by
  induction k generalizing n with
  | zero => rfl
  | succ k ih => simp [toBytesLE, ih]

theorem fromBytesLE_toBytesLE (k n : Nat) : fromBytesLE (toBytesLE k n) = n % 256 ^ k := by
  induction k generalizing n with
  | zero => simp [toBytesLE, fromBytesLE, Nat.mod_one]
  | succ k ih =>
    simp only [toBytesLE, fromBytesLE, ih, to_byte]
    rw [pow_succ', Nat.mod_mul]

theorem to_int32_of_lt (n : Nat) (h : n < 2147483648) : to_int32 n = (n : Int) := by
  have h1 : n % 4294967296 = n := Nat.mod_eq_of_lt (by omega)
  simp [to_int32, h1, h]

theorem to_size_t_of_lt (n : Nat) (h : n < 18446744073709551616) : to_size_t n = n :=
  Nat.mod_eq_of_lt h

/-! ## Lemmas on the descriptor's name -/

theorem memcpy_eq (dst : CharArray32) (src : List Byte) (n : Nat)
    (hn : n ≤ src.length) (h32 : n ≤ 32) :
    ∃ r, memcpy dst src n = some r ∧ r.val = src.take n ++ dst.val.drop n := by
  induction n with
  | zero => exact ⟨dst, rfl, by simp⟩
  | succ n ih =>
    obtain ⟨r, hr, hv⟩ := ih (by omega) (by omega)
    have hlt : n < src.length := by omega
    have h32lt : n < 32 := by omega
    refine ⟨⟨r.val.set n src[n], by simp [r.property]⟩, ?_, ?_⟩
    · simp [memcpy, hr, List.getElem?_eq_getElem hlt, CharArray32.write, h32lt]
    · have hd : dst.val.length = 32 := dst.property
      apply List.ext_getElem?
      intro i
      simp only [hv, List.getElem?_set, List.getElem?_append, List.length_take,
        List.getElem?_take, List.getElem?_drop, List.length_append, List.length_drop]
      have hm : min n src.length = n := by omega
      have hm1 : min (n + 1) src.length = n + 1 := by omega
      rw [hm, hm1]
      by_cases h1 : n = i
      · subst h1
        simp [hd, h32lt, List.getElem?_eq_getElem hlt]
      · by_cases h2 : i < n
        · have : i < n + 1 := by omega
          simp [h1, h2, this]
        · have : ¬ i < n + 1 := by omega
          simp [h1, h2, this]
          congr 1
          omega

theorem descriptor_name_eq (t : List Byte) :
    (memcpy EntityBinFile.default.info.name (if t.length > 30 then t.take 30 else t)
        (if t.length > 30 then t.take 30 else t).length).bind
      (fun name => name.write (if t.length > 30 then t.take 30 else t).length 0)
      = some (truncated_name t) := by
  have htn : (if t.length > 30 then t.take 30 else t) = t.take 30 := by
    split
    · rfl
    · rw [List.take_of_length_le (by omega)]
  rw [htn]
  have hlen : (t.take 30).length = min t.length 30 := by
    rw [List.length_take, Nat.min_comm]
  have hle : (t.take 30).length ≤ 30 := by rw [hlen]; omega
  obtain ⟨r, hr, hv⟩ := memcpy_eq EntityBinFile.default.info.name (t.take 30)
    (t.take 30).length (Nat.le_refl _) (by omega)
  have hv2 : r.val = t.take 30 ++ List.replicate (32 - min t.length 30) 0 := by
    rw [hv, List.take_length, hlen]
    show _ ++ List.drop _ (List.replicate 32 0) = _
    rw [List.drop_replicate]
  have hlt : (t.take 30).length < 32 := by omega
  simp only [hr, Option.some_bind, CharArray32.write, hlt, if_true]
  congr 1
  apply Subtype.ext
  show r.val.set (t.take 30).length 0 = (truncated_name t).val
  rw [hv2]
  simp only [truncated_name]
  apply List.ext_getElem?
  intro i
  rw [List.getElem?_set]
  by_cases h1 : (t.take 30).length = i
  · rw [if_pos h1]
    subst h1
    have hl : (t.take 30).length
        < (t.take 30 ++ List.replicate (32 - min t.length 30) (0 : Byte)).length := by
      simp only [List.length_append, List.length_replicate]
      omega
    rw [if_pos hl, List.getElem?_append_right (Nat.le_refl _), Nat.sub_self,
      List.getElem?_replicate, if_pos (by omega)]
  · rw [if_neg h1]

/-! ## Lemmas on the writer -/

theorem process_entity_vectors_eq (data : List EntityBinFile) (v : EntityVector) :
    process_entity_vectors data v
      = some (if v.elems.isEmpty then data else data ++ [section_of v]) := by
  unfold process_entity_vectors
  by_cases h : v.elems.isEmpty = true
  · simp [h]
  · simp only [h, if_false, Bool.false_eq_true]
    have hn := descriptor_name_eq v.type.type_name
    simp only [Option.bind_eq_bind, bind_assoc] at hn ⊢
    cases hm : memcpy EntityBinFile.default.info.name
        (if v.type.type_name.length > 30 then v.type.type_name.take 30 else v.type.type_name)
        (if v.type.type_name.length > 30 then v.type.type_name.take 30
          else v.type.type_name).length with
    | none => rw [hm] at hn; simp at hn
    | some r =>
      rw [hm] at hn
      simp only [Option.some_bind] at hn
      simp [hn, section_of, EntityBinFile.default]

theorem collect_eq (bundle : List EntityVector) (data : List EntityBinFile) :
    bundle.foldlM process_entity_vectors data
      = some (data ++ (non_empty_sequences bundle).map section_of) := by
  induction bundle generalizing data with
  | nil => simp [non_empty_sequences]
  | cons v vs ih =>
    rw [List.foldlM_cons, process_entity_vectors_eq]
    simp only [Option.bind_eq_bind, Option.some_bind]
    rw [ih]
    by_cases h : v.elems.isEmpty = true
    · simp [h, non_empty_sequences]
    · simp [h, non_empty_sequences]

theorem object_bytes_length (p : EntityProperties) : p.object_bytes.length = 40 := by
  simp [EntityProperties.object_bytes, toBytesLE_length, p.name.property]

theorem store_descriptor_eq (p : EntityProperties) (fh : ofstream) :
    p.store_to_buffer fh = (⟨fh.contents ++ p.object_bytes⟩, 40) := by
  unfold EntityProperties.store_to_buffer Serializable.store_to_buffer_ofstream
  have h : (to_uint32 p.object_bytes.length).val = 40 := by
    rw [object_bytes_length]
    rfl
  simp only [h, ofstream.write]
  rw [List.take_of_length_le (by rw [object_bytes_length])]
  rfl

theorem write_descriptors_eq (data : List EntityBinFile) (fh : ofstream) :
    data.foldl (fun fh ei => (ei.info.store_to_buffer fh).1) fh
      = ⟨fh.contents ++ (data.map (fun ei => ei.info.object_bytes)).flatten⟩ := by
  induction data generalizing fh with
  | nil => simp
  | cons ei rest ih =>
    rw [List.foldl_cons, ih]
    simp [store_descriptor_eq]

theorem write_payloads_eq (data : List EntityBinFile) (fh : ofstream) :
    data.foldl (fun fh ei => fh.write ei.buffer ei.buffer.length) fh
      = ⟨fh.contents ++ (data.map (fun ei => ei.buffer)).flatten⟩ := by
  induction data generalizing fh with
  | nil => simp
  | cons ei rest ih =>
    rw [List.foldl_cons, ih]
    simp [ofstream.write]

theorem ctor_eq (bundle : List EntityVector) :
    EntitySerializer.ctor bundle
      = some ⟨(non_empty_sequences bundle).map section_of,
          toBytesLE 8 (to_size_t bundle.length)
            ++ (((non_empty_sequences bundle).map section_of).map
                  (fun ei => ei.info.object_bytes)).flatten
            ++ (((non_empty_sequences bundle).map section_of).map
                  (fun ei => ei.buffer)).flatten⟩ := by
  unfold EntitySerializer.ctor
  rw [collect_eq]
  simp only [Option.bind_eq_bind, Option.some_bind, List.nil_append]
  rw [write_descriptors_eq, write_payloads_eq]
  simp [ofstream.write, toBytesLE_length]

theorem foldl_store_eq (ty : EntityType) (h : AppendOnly ty) (elems : List ty.value_type)
    (buffer : Buffer) :
    elems.foldl (fun buffer entity => (ty.store_to_buffer entity buffer).1) buffer
      = buffer ++ (elems.map (encoded ty)).flatten := by
  induction elems generalizing buffer with
  | nil => simp
  | cons e rest ih =>
    rw [List.foldl_cons, ih, h e buffer]
    simp [encoded]

/-! ## Lemmas on the record types -/

theorem ObjectA.store_to_buffer_eq (v : ObjectA) (buffer : Buffer) :
    v.store_to_buffer buffer
      = (buffer ++ ([v.id] ++ [v.health] ++ toBytesLE 8 (to_size_t v.name.length)
            ++ v.name.take (to_size_t v.name.length)),
          to_int32 (to_size_t (1 + 1 + 8 + to_size_t v.name.length))) := by
  have h8 : (toBytesLE 8 (to_size_t v.name.length)).take 8
      = toBytesLE 8 (to_size_t v.name.length) :=
    List.take_of_length_le (by rw [toBytesLE_length])
  simp [ObjectA.store_to_buffer, Buffer.insert_end, h8]

theorem ObjectA.store_to_buffer_of_lt (v : ObjectA) (buffer : Buffer)
    (h : v.name.length < 18446744073709551616) :
    (v.store_to_buffer buffer).1
      = buffer ++ [v.id] ++ [v.health] ++ toBytesLE 8 v.name.length ++ v.name := by
  rw [ObjectA.store_to_buffer_eq, to_size_t_of_lt _ h, List.take_length]
  simp

theorem ObjectA.store_to_buffer_at_int32_limit (v : ObjectA)
    (hl : v.name.length = 2147483638) :
    (v.store_to_buffer []).1.length = 2147483648 ∧
    (v.store_to_buffer []).2 = -2147483648 := by
  rw [ObjectA.store_to_buffer_eq, hl]
  constructor
  · simp [toBytesLE_length, to_size_t, hl]
  · show to_int32 (to_size_t (1 + 1 + 8 + to_size_t 2147483638)) = -2147483648
    decide

theorem objectA_appendOnly (type_name : List Byte) (sizeof_vector : Nat) :
    AppendOnly (ObjectA.entity_type type_name sizeof_vector) := by
  intro e buffer
  show (ObjectA.store_to_buffer e buffer).1 = buffer ++ (ObjectA.store_to_buffer e []).1
  rw [ObjectA.store_to_buffer_eq, ObjectA.store_to_buffer_eq]
  simp

theorem objectB_appendOnly (type_name : List Byte) (sizeof_vector : Nat) :
    AppendOnly (ObjectB.entity_type type_name sizeof_vector) := by
  intro e buffer
  show (ObjectB.store_to_buffer e buffer).1 = buffer ++ (ObjectB.store_to_buffer e []).1
  simp [ObjectB.store_to_buffer, Serializable.store_to_buffer, Buffer.insert_end]

theorem main_bundle_appendOnly : ∀ v ∈ main_bundle, AppendOnly v.type := by
  intro v hv
  simp only [main_bundle, List.mem_cons, List.mem_singleton, List.not_mem_nil, or_false] at hv
  rcases hv with rfl | rfl
  · exact objectA_appendOnly _ _
  · exact objectB_appendOnly _ _

theorem read_append (xs rest : List Byte) :
    ifstream.read ⟨xs ++ rest, true⟩ xs.length = (⟨rest, true⟩, xs) := by
  simp [ifstream.read]

theorem overwrite_same_length (dst src : List Byte) (h : src.length = dst.length) :
    overwrite dst src = src := by
  simp [overwrite, h]

theorem ObjectA.load_from_buffer_eq (self v : ObjectA) (rest : List Byte)
    (h : v.name.length < 18446744073709551616) :
    self.load_from_buffer ⟨(v.store_to_buffer []).1 ++ rest, true⟩
      = (⟨v.id, v.health, overwrite self.name v.name⟩, ⟨rest, true⟩,
          to_int32 (to_size_t (1 + 1 + 8 + v.name.length))) := by
  rw [ObjectA.store_to_buffer_of_lt v [] h]
  have e1 : ifstream.read ⟨[] ++ [v.id] ++ [v.health] ++ toBytesLE 8 v.name.length
        ++ v.name ++ rest, true⟩ 1
      = (⟨[v.health] ++ toBytesLE 8 v.name.length ++ v.name ++ rest, true⟩, [v.id]) := by
    simp [ifstream.read]
  have e2 : ifstream.read ⟨[v.health] ++ toBytesLE 8 v.name.length ++ v.name ++ rest, true⟩ 1
      = (⟨toBytesLE 8 v.name.length ++ v.name ++ rest, true⟩, [v.health]) := by
    simp [ifstream.read]
  have e3 : ifstream.read ⟨toBytesLE 8 v.name.length ++ v.name ++ rest, true⟩ 8
      = (⟨v.name ++ rest, true⟩, toBytesLE 8 v.name.length) := by
    have := read_append (toBytesLE 8 v.name.length) (v.name ++ rest)
    rw [toBytesLE_length] at this
    rw [List.append_assoc]
    exact this
  have e4 : fromBytesLE (overwrite (toBytesLE 8 0) (toBytesLE 8 v.name.length))
      = v.name.length := by
    rw [overwrite_same_length _ _ (by rw [toBytesLE_length, toBytesLE_length]),
      fromBytesLE_toBytesLE]
    exact Nat.mod_eq_of_lt h
  unfold ObjectA.load_from_buffer
  simp only [e1, e2, e3, e4, read_append]
  simp [overwrite]

theorem to_int32_spec (n : Nat) :
    -2147483648 ≤ to_int32 n ∧ to_int32 n < 2147483648 ∧
      (4294967296 : Int) ∣ (to_int32 n - (n : Int)) := by
  unfold to_int32
  split <;> omega

theorem ObjectA.store_to_buffer_result (v : ObjectA) (buffer : Buffer) :
    -2147483648 ≤ (v.store_to_buffer buffer).2 ∧ (v.store_to_buffer buffer).2 < 2147483648 ∧
      (4294967296 : Int) ∣
        ((v.store_to_buffer buffer).2 - ((1 + 1 + 8 + v.name.length : Nat) : Int)) := by
  rw [ObjectA.store_to_buffer_eq]
  have h := to_int32_spec (to_size_t (1 + 1 + 8 + to_size_t v.name.length))
  refine ⟨h.1, h.2.1, ?_⟩
  have h3 := h.2.2
  unfold to_size_t at h3 ⊢
  omega

/-! ## The section count and the descriptors -/

/-- C1, the code at a bundle of one empty and one non-empty sequence: the writer
succeeds, the section count stored in the first 8 bytes of the file is 2, the
number of input sequences, while only one sequence is non-empty and only one
descriptor is built. -/
theorem section_count_counts_empty_sequences :
    ∃ s, EntitySerializer.ctor bundle_with_empty_sequence = some s ∧
      fromBytesLE (s.file.take 8) = 2 ∧
      bundle_with_empty_sequence.length = 2 ∧
      (non_empty_sequences bundle_with_empty_sequence).length = 1 ∧
      s.m_binfile_data.length = 1 :=
  ⟨_, ctor_eq bundle_with_empty_sequence, by decide, by decide, by decide, by decide⟩

/-- C2, the code at the first record of `main.cpp`: decoding its encoding into a
default-constructed `ObjectA` restores `id` and `health` but leaves `name`
empty, so the result differs from the record under `operator==`. -/
theorem load_from_buffer_leaves_name_empty :
    (ObjectA.default.load_from_buffer ⟨(main_object_a.store_to_buffer []).1, true⟩).1
        = ⟨1, 100, []⟩ ∧
      ObjectA.eq
        (ObjectA.default.load_from_buffer ⟨(main_object_a.store_to_buffer []).1, true⟩).1
        main_object_a = false := by
  decide

/-- C3, the code at the bundle of `main.cpp`: the descriptor of the `ObjectB`
section has `count = 3` and `size = 24`, the size of the container object, while
a record occupies 12 bytes and the payload 36 bytes. -/
theorem descriptor_size_is_container_size :
    ∃ s, EntitySerializer.ctor main_bundle = some s ∧
      s.m_binfile_data.map (fun ei => (ei.info.count.val, ei.info.size.val, ei.buffer.length))
        = [(2, 24, 64), (3, 24, 36)] ∧
      entities_b.map (fun e => e.object_bytes.length) = [12, 12, 12] :=
  ⟨_, ctor_eq main_bundle, by decide, by decide⟩

/-- C4: for every bundle whose sequences hold fewer than `2^32` records, the
writer succeeds and the sections it builds correspond one to one, in input
order, to the non-empty input sequences; each descriptor carries the tag of its
sequence and a `count` equal to the number of records; the file holds, after
its first 8 bytes, the descriptors of exactly these sections and then their
payloads, so an empty sequence contributes neither. -/
theorem descriptors_one_per_non_empty_sequence (bundle : List EntityVector)
    (h : ∀ v ∈ bundle, v.elems.length < 4294967296) :
    ∃ s, EntitySerializer.ctor bundle = some s ∧
      List.Forall₂
        (fun (ei : EntityBinFile) (v : EntityVector) =>
          ei.info.count.val = v.elems.length ∧
          ei.info.name = truncated_name v.type.type_name)
        s.m_binfile_data (non_empty_sequences bundle) ∧
      s.file.drop 8
        = (s.m_binfile_data.map (fun ei => ei.info.object_bytes)).flatten
          ++ (s.m_binfile_data.map (fun ei => ei.buffer)).flatten := by
  refine ⟨_, ctor_eq bundle, ?_, ?_⟩
  · rw [List.forall₂_map_left_iff, List.forall₂_same]
    intro v hv
    have hmem : v ∈ bundle := (List.mem_filter.mp hv).1
    exact ⟨Nat.mod_eq_of_lt (h v hmem), rfl⟩
  · show List.drop 8 (toBytesLE 8 _ ++ _ ++ _) = _
    rw [List.append_assoc, List.drop_left' (toBytesLE_length 8 _)]

/-- Witness of C4 at the bundle of `main.cpp`. -/
theorem descriptors_one_per_non_empty_sequence_witness :
    (∀ v ∈ main_bundle, v.elems.length < 4294967296) ∧
    ∃ s, EntitySerializer.ctor main_bundle = some s ∧
      List.Forall₂
        (fun (ei : EntityBinFile) (v : EntityVector) =>
          ei.info.count.val = v.elems.length ∧
          ei.info.name = truncated_name v.type.type_name)
        s.m_binfile_data (non_empty_sequences main_bundle) ∧
      s.file.drop 8
        = (s.m_binfile_data.map (fun ei => ei.info.object_bytes)).flatten
          ++ (s.m_binfile_data.map (fun ei => ei.buffer)).flatten :=
  have h : ∀ v ∈ main_bundle, v.elems.length < 4294967296 := by
    intro v hv
    simp only [main_bundle, List.mem_cons, List.mem_singleton, List.not_mem_nil, or_false] at hv
    rcases hv with rfl | rfl <;> decide
  ⟨h, descriptors_one_per_non_empty_sequence main_bundle h⟩

/-- C5: for every bundle of record types whose `store_to_buffer` appends to its
sink, the file is an 8-byte count, then the descriptors of all sections, then
the payloads of all sections in the same order; the sections correspond in
order to the non-empty input sequences, and the payload of each is the
concatenation, in iteration order and without padding, of the encodings of
that sequence's records. -/
theorem artifact_order (bundle : List EntityVector)
    (h : ∀ v ∈ bundle, AppendOnly v.type) :
    ∃ s count_bytes, EntitySerializer.ctor bundle = some s ∧
      count_bytes.length = 8 ∧
      s.file = count_bytes
        ++ (s.m_binfile_data.map (fun ei => ei.info.object_bytes)).flatten
        ++ (s.m_binfile_data.map (fun ei => ei.buffer)).flatten ∧
      List.Forall₂
        (fun (ei : EntityBinFile) (v : EntityVector) =>
          ei.info.name = truncated_name v.type.type_name ∧
          ei.info.count = to_uint32 v.elems.length ∧
          ei.buffer = concatenated_records v)
        s.m_binfile_data (non_empty_sequences bundle) := by
  refine ⟨_, toBytesLE 8 (to_size_t bundle.length), ctor_eq bundle, toBytesLE_length 8 _,
    rfl, ?_⟩
  rw [List.forall₂_map_left_iff, List.forall₂_same]
  intro v hv
  have hmem : v ∈ bundle := (List.mem_filter.mp hv).1
  refine ⟨rfl, rfl, ?_⟩
  show List.foldl _ [] v.elems = _
  rw [foldl_store_eq v.type (h v hmem)]
  simp [concatenated_records]

/-- Witness of C5 at the bundle of `main.cpp`. -/
theorem artifact_order_witness :
    (∀ v ∈ main_bundle, AppendOnly v.type) ∧
    ∃ s count_bytes, EntitySerializer.ctor main_bundle = some s ∧
      count_bytes.length = 8 ∧
      s.file = count_bytes
        ++ (s.m_binfile_data.map (fun ei => ei.info.object_bytes)).flatten
        ++ (s.m_binfile_data.map (fun ei => ei.buffer)).flatten ∧
      List.Forall₂
        (fun (ei : EntityBinFile) (v : EntityVector) =>
          ei.info.name = truncated_name v.type.type_name ∧
          ei.info.count = to_uint32 v.elems.length ∧
          ei.buffer = concatenated_records v)
        s.m_binfile_data (non_empty_sequences main_bundle) :=
  ⟨main_bundle_appendOnly, artifact_order main_bundle main_bundle_appendOnly⟩

set_option maxRecDepth 100000 in
/-- C6, the code at a bundle of one empty and one non-empty sequence: the file
has 84 bytes, the stored section count is 2, and the payloads total 36 bytes,
which is not `84 - 8 - 40 * 2`; at the bundle of `main.cpp` (no empty sequence)
the stored count is 2, the payloads have 64 and 36 bytes, the file 188. -/
theorem payload_total_with_empty_sequence :
    (∃ s, EntitySerializer.ctor bundle_with_empty_sequence = some s ∧
      s.file.length = 84 ∧ fromBytesLE (s.file.take 8) = 2 ∧
      s.m_binfile_data.map (fun ei => ei.buffer.length) = [36] ∧
      ((s.m_binfile_data.map (fun ei => ei.buffer.length)).sum : Int)
        ≠ (s.file.length : Int) - 8 - 40 * (fromBytesLE (s.file.take 8) : Int)) ∧
    (∃ s, EntitySerializer.ctor main_bundle = some s ∧
      s.file.length = 188 ∧ fromBytesLE (s.file.take 8) = 2 ∧
      s.m_binfile_data.map (fun ei => ei.buffer.length) = [64, 36] ∧
      ((s.m_binfile_data.map (fun ei => ei.buffer.length)).sum : Int)
        = (s.file.length : Int) - 8 - 40 * (fromBytesLE (s.file.take 8) : Int)) :=
  ⟨⟨_, ctor_eq bundle_with_empty_sequence, by decide, by decide, by decide, by decide⟩,
   ⟨_, ctor_eq main_bundle, by decide, by decide, by decide, by decide⟩⟩

/-- C7: for every type tag `t` of a non-empty sequence, the writer builds the
descriptor without storing outside the 32-byte `name` array (the result is
`some`), and `name` holds the first `min (len t) 30` bytes of `t` followed by
null bytes at position `min (len t) 30` and at every later position. -/
theorem tag_truncation (data : List EntityBinFile) (v : EntityVector) (h : v.elems ≠ []) :
    ∃ ei, process_entity_vectors data v = some (data ++ [ei]) ∧
      ei.info.name.val.length = 32 ∧
      ei.info.name.val.take (min v.type.type_name.length 30)
        = v.type.type_name.take (min v.type.type_name.length 30) ∧
      ∀ i, min v.type.type_name.length 30 ≤ i → i < 32 → ei.info.name.val[i]? = some 0 := by
  have hlen : (v.type.type_name.take 30).length = min v.type.type_name.length 30 := by
    rw [List.length_take, Nat.min_comm]
  refine ⟨section_of v, ?_, (section_of v).info.name.property, ?_, ?_⟩
  · rw [process_entity_vectors_eq]
    have : v.elems.isEmpty = false := by
      cases hv : v.elems with
      | nil => exact absurd hv h
      | cons a l => rfl
    simp [this]
  · show (v.type.type_name.take 30 ++ List.replicate _ 0).take _ = _
    rw [List.take_left' hlen]
    by_cases hle : v.type.type_name.length ≤ 30
    · rw [Nat.min_eq_left hle, List.take_length, List.take_of_length_le hle]
    · rw [Nat.min_eq_right (by omega)]
  · intro i hi h32
    show (v.type.type_name.take 30 ++ List.replicate _ 0)[i]? = some 0
    rw [List.getElem?_append_right (by omega), List.getElem?_replicate, if_pos (by omega)]

/-- Witness of C7 at the `ObjectB` sequence of `main.cpp`. -/
theorem tag_truncation_witness :
    entities_b ≠ [] ∧
    ∃ ei, process_entity_vectors []
        ⟨ObjectB.entity_type (bytesOf "ObjectB") sizeof_std_vector, entities_b⟩
          = some ([] ++ [ei]) ∧
      ei.info.name.val.length = 32 ∧
      ei.info.name.val.take (min (bytesOf "ObjectB").length 30)
        = (bytesOf "ObjectB").take (min (bytesOf "ObjectB").length 30) ∧
      ∀ i, min (bytesOf "ObjectB").length 30 ≤ i → i < 32 → ei.info.name.val[i]? = some 0 :=
  ⟨by decide,
    tag_truncation [] ⟨ObjectB.entity_type (bytesOf "ObjectB") sizeof_std_vector, entities_b⟩
      (show entities_b ≠ [] by decide)⟩

/-! ## The custom-layout record -/

/-- C8: for every `ObjectA` value `v` (whose name, being a `std::string`, is
shorter than `2^64` bytes), `store_to_buffer` appends the byte `id`, the byte
`health`, eight bytes that are the little-endian image of the name's length,
and the bytes of the name; and `load_from_buffer`, given that encoding followed
by any bytes `rest`, consumes exactly the encoding: it takes its length prefix
from the same eight bytes and leaves `rest` unread. -/
theorem objectA_byte_layout (v self : ObjectA) (buffer rest : List Byte)
    (h : v.name.length < 18446744073709551616) :
    ∃ len_bytes : List Byte, len_bytes.length = 8 ∧ fromBytesLE len_bytes = v.name.length ∧
      (v.store_to_buffer buffer).1
        = buffer ++ [v.id] ++ [v.health] ++ len_bytes ++ v.name ∧
      (self.load_from_buffer
          ⟨[v.id] ++ [v.health] ++ len_bytes ++ v.name ++ rest, true⟩).2.1
        = ⟨rest, true⟩ := by
  refine ⟨toBytesLE 8 v.name.length, toBytesLE_length 8 _, ?_,
    ObjectA.store_to_buffer_of_lt v buffer h, ?_⟩
  · rw [fromBytesLE_toBytesLE]
    exact Nat.mod_eq_of_lt h
  · have := ObjectA.load_from_buffer_eq self v rest h
    rw [ObjectA.store_to_buffer_of_lt v [] h, List.nil_append] at this
    rw [this]

/-- Witness of C8 at the first record of `main.cpp`. -/
theorem objectA_byte_layout_witness :
    main_object_a.name.length < 18446744073709551616 ∧
    ∃ len_bytes : List Byte, len_bytes.length = 8 ∧
      fromBytesLE len_bytes = main_object_a.name.length ∧
      (main_object_a.store_to_buffer []).1
        = [] ++ [main_object_a.id] ++ [main_object_a.health] ++ len_bytes
          ++ main_object_a.name ∧
      (ObjectA.default.load_from_buffer
          ⟨[main_object_a.id] ++ [main_object_a.health] ++ len_bytes
            ++ main_object_a.name ++ [], true⟩).2.1
        = ⟨[], true⟩ :=
  ⟨by decide, objectA_byte_layout main_object_a ObjectA.default [] [] (by decide)⟩

/-- C9 as stated fails: for a name of `2^31 - 10` bytes `store_to_buffer` appends
`2^31` bytes to an empty buffer and returns `-2^31`, which is not the number of
bytes appended. -/
theorem encoded_byte_count_overflows :
    (object_a_with_long_name.store_to_buffer []).1.length = 2147483648 ∧
    (object_a_with_long_name.store_to_buffer []).2 = -2147483648 ∧
    (object_a_with_long_name.store_to_buffer []).2
      ≠ ((object_a_with_long_name.store_to_buffer []).1.length : Int) := by
  have h := ObjectA.store_to_buffer_at_int32_limit object_a_with_long_name
    (List.length_replicate _ _)
  refine ⟨h.1, h.2, ?_⟩
  rw [h.1, h.2]
  decide

/-- C9, amended: for every `ObjectA` value `v` and every prior buffer content
`b`, `store_to_buffer` leaves `b` at the start of the buffer and appends
exactly `1 + 1 + 8 + len(v.name)` bytes (the name, a `std::string`, being
shorter than `2^64` bytes); its result lies in the signed 32-bit range and is
congruent to that number modulo `2^32`, so it is that number whenever the name
is shorter than `2^31 - 10` bytes; for a 3-byte name the result is 13. -/
theorem encoded_byte_count (v : ObjectA) (b : Buffer) :
    ∃ appended : List Byte, (v.store_to_buffer b).1 = b ++ appended ∧
      (v.name.length < 18446744073709551616 →
        appended.length = 1 + 1 + 8 + v.name.length) ∧
      -2147483648 ≤ (v.store_to_buffer b).2 ∧ (v.store_to_buffer b).2 < 2147483648 ∧
      (4294967296 : Int) ∣
        ((v.store_to_buffer b).2 - ((1 + 1 + 8 + v.name.length : Nat) : Int)) ∧
      (v.name.length < 2147483638 →
        (v.store_to_buffer b).2 = ((1 + 1 + 8 + v.name.length : Nat) : Int)) ∧
      (v.name.length = 3 → (v.store_to_buffer b).2 = 13) := by
  have hres := ObjectA.store_to_buffer_result v b
  have hr : v.name.length < 2147483638 →
      (v.store_to_buffer b).2 = ((1 + 1 + 8 + v.name.length : Nat) : Int) := by
    intro h
    rw [ObjectA.store_to_buffer_eq, to_size_t_of_lt v.name.length (by omega),
      to_size_t_of_lt _ (by omega)]
    exact to_int32_of_lt _ (by omega)
  refine ⟨[v.id] ++ [v.health] ++ toBytesLE 8 (to_size_t v.name.length)
      ++ v.name.take (to_size_t v.name.length), ?_, ?_, hres.1, hres.2.1, hres.2.2, hr, ?_⟩
  · rw [ObjectA.store_to_buffer_eq]
  · intro h64
    rw [to_size_t_of_lt _ h64, List.take_length]
    simp only [List.length_append, List.length_singleton, toBytesLE_length]
  · intro h3
    rw [hr (by omega), h3]
    rfl

/-- Witness of C9 (amended) at a record with a 3-byte name: 13 bytes are
appended and 13 is returned. -/
theorem encoded_byte_count_witness :
    object_a_with_short_name.name.length < 18446744073709551616 ∧
    object_a_with_short_name.name.length < 2147483638 ∧
    object_a_with_short_name.name.length = 3 ∧
    ∃ appended : List Byte,
      (object_a_with_short_name.store_to_buffer []).1 = [] ++ appended ∧
      appended.length = 1 + 1 + 8 + object_a_with_short_name.name.length ∧
      (object_a_with_short_name.store_to_buffer []).2
        = ((1 + 1 + 8 + object_a_with_short_name.name.length : Nat) : Int) ∧
      (object_a_with_short_name.store_to_buffer []).2 = 13 :=
  ⟨by decide, by decide, by decide,
    (encoded_byte_count object_a_with_short_name []).elim
      (fun appended h =>
        ⟨appended, h.1, h.2.1 (by decide), h.2.2.2.2.2.1 (by decide),
          h.2.2.2.2.2.2 (by decide)⟩)⟩

/-! ## The descriptor on disk -/

/-- C10: every section descriptor is written to the file as exactly 40 bytes:
four bytes that are the little-endian image of `count`, four bytes that are the
little-endian image of `size`, then the 32 bytes of `name`, with nothing in
between; and the `store_to_buffer` that writes it returns 40. -/
theorem descriptor_is_40_bytes (p : EntityProperties) (fh : ofstream) :
    ∃ count_bytes size_bytes : List Byte,
      count_bytes.length = 4 ∧ fromBytesLE count_bytes = p.count.val ∧
      size_bytes.length = 4 ∧ fromBytesLE size_bytes = p.size.val ∧
      p.name.val.length = 32 ∧
      (p.store_to_buffer fh).1.contents
        = fh.contents ++ (count_bytes ++ size_bytes ++ p.name.val) ∧
      (count_bytes ++ size_bytes ++ p.name.val).length = 40 ∧
      (p.store_to_buffer fh).2 = 40 := by
  refine ⟨toBytesLE 4 p.count.val, toBytesLE 4 p.size.val, toBytesLE_length 4 _, ?_,
    toBytesLE_length 4 _, ?_, p.name.property, ?_, object_bytes_length p, ?_⟩
  · rw [fromBytesLE_toBytesLE]
    exact Nat.mod_eq_of_lt p.count.isLt
  · rw [fromBytesLE_toBytesLE]
    exact Nat.mod_eq_of_lt p.size.isLt
  · rw [store_descriptor_eq]
    rfl
  · rw [store_descriptor_eq]

/-! ## Further lemmas on the record types and the writer -/

theorem take_four_toBytesLE (n : Nat) (rest : List Byte) :
    (toBytesLE 4 n ++ rest).take 4 = toBytesLE 4 n :=
  List.take_left' (toBytesLE_length 4 n)

theorem drop_four_toBytesLE (n : Nat) (rest : List Byte) :
    (toBytesLE 4 n ++ rest).drop 4 = rest :=
  List.drop_left' (toBytesLE_length 4 n)

theorem to_uint32_fromBytesLE_toBytesLE (a : uint32_t) :
    to_uint32 (fromBytesLE (toBytesLE 4 a.val)) = a := by
  apply Fin.ext
  show fromBytesLE (toBytesLE 4 a.val) % 4294967296 = a.val
  rw [fromBytesLE_toBytesLE]
  have h : a.val < 4294967296 := a.isLt
  have h256 : (256 : Nat) ^ 4 = 4294967296 := by norm_num
  have h1 : a.val % 256 ^ 4 = a.val := Nat.mod_eq_of_lt (by omega)
  rw [h1]
  exact Nat.mod_eq_of_lt h

theorem ObjectB.of_object_bytes_object_bytes (v : ObjectB) :
    ObjectB.of_object_bytes v.object_bytes = v := by
  unfold ObjectB.of_object_bytes ObjectB.object_bytes
  have e1 : (toBytesLE 4 v.id.val ++ toBytesLE 4 v.pos.x.val ++ toBytesLE 4 v.pos.y.val).take 4
      = toBytesLE 4 v.id.val := by
    rw [List.append_assoc]
    exact take_four_toBytesLE _ _
  have e2 : (toBytesLE 4 v.id.val ++ toBytesLE 4 v.pos.x.val ++ toBytesLE 4 v.pos.y.val).drop 4
      = toBytesLE 4 v.pos.x.val ++ toBytesLE 4 v.pos.y.val := by
    rw [List.append_assoc]
    exact drop_four_toBytesLE _ _
  have e3 : (toBytesLE 4 v.id.val ++ toBytesLE 4 v.pos.x.val ++ toBytesLE 4 v.pos.y.val).drop 8
      = toBytesLE 4 v.pos.y.val := by
    have : (toBytesLE 4 v.id.val ++ toBytesLE 4 v.pos.x.val).length = 8 := by
      simp [toBytesLE_length]
    exact List.drop_left' this
  rw [e1, e2, e3, take_four_toBytesLE,
    List.take_of_length_le (Nat.le_of_eq (toBytesLE_length 4 v.pos.y.val)),
    to_uint32_fromBytesLE_toBytesLE, to_uint32_fromBytesLE_toBytesLE,
    to_uint32_fromBytesLE_toBytesLE]

theorem objectB_object_bytes_length (v : ObjectB) : v.object_bytes.length = 12 := by
  simp [ObjectB.object_bytes, toBytesLE_length]

theorem objectB_store_to_buffer_eq (v : ObjectB) (buffer : Buffer) :
    v.store_to_buffer buffer = (buffer ++ v.object_bytes, 12) := by
  unfold ObjectB.store_to_buffer Serializable.store_to_buffer Buffer.insert_end
  have h : (to_uint32 v.object_bytes.length).val = 12 := by
    rw [objectB_object_bytes_length]
    rfl
  simp only [h]
  rw [List.take_of_length_le (Nat.le_of_eq (objectB_object_bytes_length v))]
  rfl

theorem objectB_load_from_buffer_eq (self : ObjectB) (buffer : ifstream) :
    self.load_from_buffer buffer = (self, buffer, 12) := by
  unfold ObjectB.load_from_buffer Serializable.load_from_buffer
  simp only [ObjectB.of_object_bytes_object_bytes, objectB_object_bytes_length]
  rfl

theorem section_count_eq (bundle : List EntityVector)
    (h : bundle.length < 18446744073709551616) :
    fromBytesLE ((toBytesLE 8 (to_size_t bundle.length)
      ++ (((non_empty_sequences bundle).map section_of).map
            (fun ei => ei.info.object_bytes)).flatten
      ++ (((non_empty_sequences bundle).map section_of).map
            (fun ei => ei.buffer)).flatten).take 8) = bundle.length := by
  rw [List.append_assoc, List.take_left' (toBytesLE_length 8 _), fromBytesLE_toBytesLE,
    to_size_t_of_lt _ h]
  have h256 : (256 : Nat) ^ 8 = 18446744073709551616 := by norm_num
  exact Nat.mod_eq_of_lt (by omega)

theorem ObjectA.store_to_buffer_length (v : ObjectA) (buffer : Buffer)
    (h : v.name.length < 18446744073709551616) :
    (v.store_to_buffer buffer).1.length = buffer.length + (10 + v.name.length) := by
  rw [ObjectA.store_to_buffer_of_lt v buffer h]
  simp only [List.length_append, List.length_singleton, toBytesLE_length]
  omega

theorem ObjectA.load_from_buffer_at_int32_limit (self v : ObjectA)
    (hl : v.name.length = 2147483638) :
    self.load_from_buffer ⟨(v.store_to_buffer []).1, true⟩
      = (⟨v.id, v.health, overwrite self.name v.name⟩, ⟨[], true⟩, -2147483648) := by
  have h := ObjectA.load_from_buffer_eq self v [] (by omega)
  rw [List.append_nil, hl] at h
  rw [h]
  rfl

theorem padded_tag_injective (p q : List Byte) (hp : (0 : Byte) ∉ p) (hq : (0 : Byte) ∉ q)
    (hpl : p.length ≤ 30) (hql : q.length ≤ 30)
    (h : p ++ List.replicate (32 - p.length) (0 : Byte)
      = q ++ List.replicate (32 - q.length) (0 : Byte)) : p = q := by
  have key : ∀ (a b : List Byte), (0 : Byte) ∉ b → a.length ≤ 30 →
      a ++ List.replicate (32 - a.length) (0 : Byte)
        = b ++ List.replicate (32 - b.length) (0 : Byte) → ¬ a.length < b.length := by
    intro a b hb hal hab hlt
    have h1 : (a ++ List.replicate (32 - a.length) (0 : Byte))[a.length]? = some 0 := by
      rw [List.getElem?_append_right (Nat.le_refl _), Nat.sub_self, List.getElem?_replicate,
        if_pos (by omega)]
    rw [hab, List.getElem?_append_left hlt, List.getElem?_eq_getElem hlt] at h1
    have hmem : b[a.length] ∈ b := List.getElem_mem hlt
    rw [Option.some.inj h1] at hmem
    exact hb hmem
  have hlen : p.length = q.length := by
    have h1 := key p q hq hpl h
    have h2 := key q p hp hql h.symm
    omega
  exact (List.append_inj h hlen).1

theorem truncated_name_injective (t u : List Byte) (ht : (0 : Byte) ∉ t) (hu : (0 : Byte) ∉ u)
    (h : truncated_name t = truncated_name u) : t.take 30 = u.take 30 := by
  have hv : (truncated_name t).val = (truncated_name u).val := congrArg Subtype.val h
  have lt : (t.take 30).length = min t.length 30 := by rw [List.length_take, Nat.min_comm]
  have lu : (u.take 30).length = min u.length 30 := by rw [List.length_take, Nat.min_comm]
  simp only [truncated_name] at hv
  rw [← lt, ← lu] at hv
  exact padded_tag_injective _ _ (fun hm => ht (List.mem_of_mem_take hm))
    (fun hm => hu (List.mem_of_mem_take hm)) (by omega) (by omega) hv

theorem ObjectA.payload_cons (x : ObjectA) (xs : List ObjectA) :
    ObjectA.payload (x :: xs) = (x.store_to_buffer []).1 ++ ObjectA.payload xs := by
  have h := foldl_store_eq (ObjectA.entity_type [] 0) (objectA_appendOnly [] 0)
  have h1 := h (x :: xs) []
  have h2 := h xs []
  simp only [List.nil_append] at h1 h2
  show List.foldl (fun buffer entity => (ObjectA.store_to_buffer entity buffer).1) [] (x :: xs)
    = (ObjectA.store_to_buffer x []).1
      ++ List.foldl (fun buffer entity => (ObjectA.store_to_buffer entity buffer).1) [] xs
  exact (h1.trans (by simp [encoded, ObjectA.entity_type])).trans
    (congrArg (fun l => (ObjectA.store_to_buffer x []).1 ++ l) h2.symm)

theorem ObjectA.store_to_buffer_cancel (x y : ObjectA) (a b : List Byte)
    (hx : x.name.length < 18446744073709551616) (hy : y.name.length < 18446744073709551616)
    (h : (x.store_to_buffer []).1 ++ a = (y.store_to_buffer []).1 ++ b) : x = y ∧ a = b := by
  rw [ObjectA.store_to_buffer_of_lt x [] hx, ObjectA.store_to_buffer_of_lt y [] hy] at h
  simp only [List.nil_append, List.singleton_append, List.cons_append, List.append_assoc,
    List.cons.injEq] at h
  obtain ⟨hid, hhealth, hrest⟩ := h
  have h8 : (toBytesLE 8 x.name.length).length = (toBytesLE 8 y.name.length).length := by
    rw [toBytesLE_length, toBytesLE_length]
  obtain ⟨hlen, hname⟩ := List.append_inj hrest h8
  have h256 : (256 : Nat) ^ 8 = 18446744073709551616 := by norm_num
  have hl : x.name.length = y.name.length := by
    have := congrArg fromBytesLE hlen
    rw [fromBytesLE_toBytesLE, fromBytesLE_toBytesLE, Nat.mod_eq_of_lt (by omega),
      Nat.mod_eq_of_lt (by omega)] at this
    exact this
  obtain ⟨hn, hab⟩ := List.append_inj hname hl
  refine ⟨?_, hab⟩
  cases x
  cases y
  simp only [ObjectA.mk.injEq]
  exact ⟨hid, hhealth, hn⟩

theorem ObjectA.store_to_buffer_ne_nil (x : ObjectA) (a : List Byte) :
    (x.store_to_buffer []).1 ++ a ≠ [] := by
  rw [ObjectA.store_to_buffer_eq]
  simp

/-! ## The empty bundle and the auto-derived path -/

/-- C11, the code at a bundle whose only sequence is empty: no sequence is
non-empty, the writer produces a file of exactly 8 bytes, and these bytes hold
the value 1, the number of input sequences, not 0. -/
theorem all_empty_bundle_count_is_input_count :
    ∃ s, EntitySerializer.ctor bundle_of_one_empty_sequence = some s ∧
      non_empty_sequences bundle_of_one_empty_sequence = [] ∧
      s.m_binfile_data = [] ∧
      s.file.length = 8 ∧
      fromBytesLE s.file = 1 ∧
      s.file ≠ toBytesLE 8 0 :=
  ⟨_, ctor_eq bundle_of_one_empty_sequence, rfl, by decide, by decide, by decide,
    by decide⟩

/-- C12, the code on `ObjectB`: for every value `store_to_buffer` appends its 12
bytes of object representation and returns 12, but `load_from_buffer` returns
12 without reading the source or changing the object it is called on; a
default-constructed `ObjectB` loaded from the encoding of the first record of
`main.cpp` stays default-constructed and differs from that record. -/
theorem auto_derived_load_keeps_self :
    (∀ (v : ObjectB) (buffer : Buffer),
      v.store_to_buffer buffer = (buffer ++ v.object_bytes, 12) ∧
      v.object_bytes.length = 12) ∧
    (∀ (self : ObjectB) (buffer : ifstream), self.load_from_buffer buffer = (self, buffer, 12)) ∧
    (ObjectB.default.load_from_buffer ⟨(main_object_b.store_to_buffer []).1, true⟩).1
      = ObjectB.default ∧
    ObjectB.default ≠ main_object_b :=
  ⟨fun v buffer => ⟨objectB_store_to_buffer_eq v buffer, objectB_object_bytes_length v⟩,
    objectB_load_from_buffer_eq, by rw [objectB_load_from_buffer_eq], by decide⟩

/-! ## Byte counts and sink branches of the custom-layout record -/

/-- C13 as stated fails: for a name of `2^31 - 10` bytes, `load_from_buffer`
reading the record's encoding consumes all `2^31` bytes of it and returns
`-2^31`, as `store_to_buffer` did; the count is not `10 + len(name)`. -/
theorem decoded_byte_count_overflows :
    (ObjectA.default.load_from_buffer
        ⟨(object_a_with_long_name.store_to_buffer []).1, true⟩).2.2 = -2147483648 ∧
    (object_a_with_long_name.store_to_buffer []).2 = -2147483648 ∧
    (ObjectA.default.load_from_buffer
        ⟨(object_a_with_long_name.store_to_buffer []).1, true⟩).2.1 = ⟨[], true⟩ ∧
    (object_a_with_long_name.store_to_buffer []).1.length = 2147483648 ∧
    (ObjectA.default.load_from_buffer
        ⟨(object_a_with_long_name.store_to_buffer []).1, true⟩).2.2
      ≠ ((10 + object_a_with_long_name.name.length : Nat) : Int) := by
  have hl : object_a_with_long_name.name.length = 2147483638 := List.length_replicate _ _
  have h := ObjectA.load_from_buffer_at_int32_limit ObjectA.default object_a_with_long_name hl
  have hs := ObjectA.store_to_buffer_at_int32_limit object_a_with_long_name hl
  refine ⟨by rw [h], hs.2, by rw [h], hs.1, ?_⟩
  rw [h, hl]
  decide

/-- C13, amended: for every `ObjectA` value `v` (whose name, being a
`std::string`, is shorter than `2^64` bytes), `load_from_buffer` reading the
bytes produced by `store_to_buffer` (followed by any bytes `rest`) returns the
count `store_to_buffer` returned and consumes exactly the `10 + len(v.name)`
bytes of the encoding, leaving `rest` unread; the count lies in the signed
32-bit range and is congruent to `10 + len(v.name)` modulo `2^32`, so both
counts are `10 + len(v.name)`, the number of bytes consumed, whenever the name
is shorter than `2^31 - 10` bytes. -/
theorem decode_count_eq_encode_count (v self : ObjectA) (rest : List Byte)
    (h64 : v.name.length < 18446744073709551616) :
    (self.load_from_buffer ⟨(v.store_to_buffer []).1 ++ rest, true⟩).2.2
        = (v.store_to_buffer []).2 ∧
      (self.load_from_buffer ⟨(v.store_to_buffer []).1 ++ rest, true⟩).2.1 = ⟨rest, true⟩ ∧
      ((v.store_to_buffer []).1 ++ rest).length = (10 + v.name.length) + rest.length ∧
      -2147483648 ≤ (self.load_from_buffer ⟨(v.store_to_buffer []).1 ++ rest, true⟩).2.2 ∧
      (self.load_from_buffer ⟨(v.store_to_buffer []).1 ++ rest, true⟩).2.2 < 2147483648 ∧
      (4294967296 : Int) ∣
        ((self.load_from_buffer ⟨(v.store_to_buffer []).1 ++ rest, true⟩).2.2
          - ((10 + v.name.length : Nat) : Int)) ∧
      (v.name.length < 2147483638 →
        (self.load_from_buffer ⟨(v.store_to_buffer []).1 ++ rest, true⟩).2.2
            = ((10 + v.name.length : Nat) : Int) ∧
          (v.store_to_buffer []).2 = ((10 + v.name.length : Nat) : Int)) := by
  have hs : to_size_t v.name.length = v.name.length := to_size_t_of_lt _ h64
  have hr : (v.store_to_buffer []).2 = to_int32 (to_size_t (1 + 1 + 8 + v.name.length)) := by
    rw [ObjectA.store_to_buffer_eq, hs]
  have hload : (self.load_from_buffer ⟨(v.store_to_buffer []).1 ++ rest, true⟩).2.2
      = (v.store_to_buffer []).2 := by
    rw [ObjectA.load_from_buffer_eq self v rest h64, hr]
  have hres := ObjectA.store_to_buffer_result v []
  have h10 : ((1 + 1 + 8 + v.name.length : Nat) : Int) = ((10 + v.name.length : Nat) : Int) := by
    congr 1
  rw [h10] at hres
  refine ⟨hload, ?_, ?_, ?_, ?_, ?_, ?_⟩
  · rw [ObjectA.load_from_buffer_eq self v rest h64]
  · rw [List.length_append, ObjectA.store_to_buffer_length v [] h64]
    simp
  · rw [hload]
    exact hres.1
  · rw [hload]
    exact hres.2.1
  · rw [hload]
    exact hres.2.2
  · intro h
    have hc : (v.store_to_buffer []).2 = ((10 + v.name.length : Nat) : Int) := by
      rw [hr, to_size_t_of_lt _ (by omega), to_int32_of_lt _ (by omega)]
    exact ⟨hload.trans hc, hc⟩

/-- Witness of C13 (amended) at the first record of `main.cpp`: 35 bytes are
consumed and both counts are 35. -/
theorem decode_count_eq_encode_count_witness :
    main_object_a.name.length < 18446744073709551616 ∧
    main_object_a.name.length < 2147483638 ∧
    (ObjectA.default.load_from_buffer
        ⟨(main_object_a.store_to_buffer []).1 ++ [], true⟩).2.2
      = (main_object_a.store_to_buffer []).2 ∧
    (ObjectA.default.load_from_buffer
        ⟨(main_object_a.store_to_buffer []).1 ++ [], true⟩).2.1 = ⟨[], true⟩ ∧
    ((main_object_a.store_to_buffer []).1 ++ []).length
      = (10 + main_object_a.name.length) + ([] : List Byte).length ∧
    (ObjectA.default.load_from_buffer
        ⟨(main_object_a.store_to_buffer []).1 ++ [], true⟩).2.2
      = ((10 + main_object_a.name.length : Nat) : Int) ∧
    (main_object_a.store_to_buffer []).2 = ((10 + main_object_a.name.length : Nat) : Int) ∧
    10 + main_object_a.name.length = 35 :=
  have h := decode_count_eq_encode_count main_object_a ObjectA.default [] (by decide)
  ⟨by decide, by decide, h.1, h.2.1, h.2.2.1, (h.2.2.2.2.2.2 (by decide)).1,
    (h.2.2.2.2.2.2 (by decide)).2, by decide⟩

/-- C15: for every `ObjectA` value, the bytes the file-sink branch of
`store_to_buffer` writes to a `std::ofstream` are the bytes the memory-sink
branch appends to a `std::vector<char>`, and both branches return the same
count. -/
theorem sink_branches_agree (v : ObjectA) (fh : ofstream) (buffer : Buffer) :
    ∃ bytes : List Byte,
      (v.store_to_buffer_ofstream fh).1.contents = fh.contents ++ bytes ∧
      (v.store_to_buffer buffer).1 = buffer ++ bytes ∧
      (v.store_to_buffer_ofstream fh).2 = (v.store_to_buffer buffer).2 := by
  refine ⟨[v.id] ++ [v.health] ++ toBytesLE 8 (to_size_t v.name.length)
    ++ v.name.take (to_size_t v.name.length), ?_, ?_, ?_⟩
  · simp [ObjectA.store_to_buffer_ofstream, ofstream.write, toBytesLE_length]
  · rw [ObjectA.store_to_buffer_eq]
  · rw [ObjectA.store_to_buffer_eq]
    rfl

/-- C17: for every bundle, the writer succeeds; the file holds, after its first
8 bytes, the descriptors and then the payloads of the sections built; the
section count stored in the first 8 bytes is at least the number of these
sections, and equals it exactly when no input sequence is empty. -/
theorem section_count_ge_descriptor_count (bundle : List EntityVector)
    (h : bundle.length < 18446744073709551616) :
    ∃ s, EntitySerializer.ctor bundle = some s ∧
      s.file.drop 8
        = (s.m_binfile_data.map (fun ei => ei.info.object_bytes)).flatten
          ++ (s.m_binfile_data.map (fun ei => ei.buffer)).flatten ∧
      s.m_binfile_data.length ≤ fromBytesLE (s.file.take 8) ∧
      (fromBytesLE (s.file.take 8) = s.m_binfile_data.length ↔ ∀ v ∈ bundle, v.elems ≠ []) := by
  refine ⟨_, ctor_eq bundle, ?_, ?_, ?_⟩
  · show List.drop 8 (toBytesLE 8 _ ++ _ ++ _) = _
    rw [List.append_assoc, List.drop_left' (toBytesLE_length 8 _)]
  · show ((non_empty_sequences bundle).map section_of).length ≤ fromBytesLE (List.take 8 _)
    rw [section_count_eq bundle h, List.length_map]
    exact List.length_filter_le _ _
  · show fromBytesLE (List.take 8 _) = ((non_empty_sequences bundle).map section_of).length ↔ _
    rw [section_count_eq bundle h, List.length_map, eq_comm]
    unfold non_empty_sequences
    rw [List.filter_length_eq_length]
    constructor
    · intro hall v hv hnil
      have := hall v hv
      simp [hnil] at this
    · intro hall v hv
      have := hall v hv
      cases hv2 : v.elems with
      | nil => exact absurd hv2 this
      | cons a l => rfl

/-- Witness of C17 at the bundle of `main.cpp`. -/
theorem section_count_ge_descriptor_count_witness :
    main_bundle.length < 18446744073709551616 ∧
    ∃ s, EntitySerializer.ctor main_bundle = some s ∧
      s.file.drop 8
        = (s.m_binfile_data.map (fun ei => ei.info.object_bytes)).flatten
          ++ (s.m_binfile_data.map (fun ei => ei.buffer)).flatten ∧
      s.m_binfile_data.length ≤ fromBytesLE (s.file.take 8) ∧
      (fromBytesLE (s.file.take 8) = s.m_binfile_data.length ↔
        ∀ v ∈ main_bundle, v.elems ≠ []) :=
  ⟨by decide, section_count_ge_descriptor_count main_bundle (by decide)⟩

/-! ## Descriptor names and unique decodability -/

/-- C14 as stated fails: the two sequences of this bundle are non-empty and
their type tags differ, but the tags agree on their first 30 bytes, and the two
descriptors the writer builds carry the same `name`. -/
theorem long_tags_share_descriptor_name :
    (bundle_with_long_tags.map (fun v => v.type.type_name)).Nodup ∧
    ∃ s, EntitySerializer.ctor bundle_with_long_tags = some s ∧
      s.m_binfile_data.length = 2 ∧
      ¬ (s.m_binfile_data.map (fun ei => ei.info.name)).Nodup :=
  ⟨by decide, _, ctor_eq bundle_with_long_tags, by decide, by decide⟩

/-- C14, amended: for every bundle whose type tags (null-free, as every
`typeid` name is) are pairwise distinct on their first 30 bytes, the writer
succeeds and no two descriptors it builds carry the same `name`. -/
theorem descriptor_names_distinct (bundle : List EntityVector)
    (hz : ∀ v ∈ bundle, (0 : Byte) ∉ v.type.type_name)
    (hd : (bundle.map (fun v => v.type.type_name.take 30)).Nodup) :
    ∃ s, EntitySerializer.ctor bundle = some s ∧
      (s.m_binfile_data.map (fun ei => ei.info.name)).Nodup := by
  refine ⟨_, ctor_eq bundle, ?_⟩
  show (((non_empty_sequences bundle).map section_of).map (fun ei => ei.info.name)).Nodup
  rw [List.map_map]
  have hsub : (non_empty_sequences bundle).Sublist bundle := List.filter_sublist _
  have hd2 : ((non_empty_sequences bundle).map (fun v => v.type.type_name.take 30)).Nodup :=
    List.Nodup.sublist (hsub.map _) hd
  have hnd : (non_empty_sequences bundle).Nodup := List.Nodup.of_map _ hd2
  refine List.Nodup.map_on ?_ hnd
  intro x hx y hy hxy
  have hxy2 : truncated_name x.type.type_name = truncated_name y.type.type_name := hxy
  have htake := truncated_name_injective _ _ (hz x (hsub.subset hx)) (hz y (hsub.subset hy)) hxy2
  exact List.inj_on_of_nodup_map hd2 hx hy htake

/-- Witness of C14 (amended) at the bundle of `main.cpp`. -/
theorem descriptor_names_distinct_witness :
    (∀ v ∈ main_bundle, (0 : Byte) ∉ v.type.type_name) ∧
    (main_bundle.map (fun v => v.type.type_name.take 30)).Nodup ∧
    ∃ s, EntitySerializer.ctor main_bundle = some s ∧
      (s.m_binfile_data.map (fun ei => ei.info.name)).Nodup :=
  have hz : ∀ v ∈ main_bundle, (0 : Byte) ∉ v.type.type_name := by
    intro v hv
    simp only [main_bundle, List.mem_cons, List.mem_singleton, List.not_mem_nil, or_false] at hv
    rcases hv with rfl | rfl <;> decide
  have hd : (main_bundle.map (fun v => v.type.type_name.take 30)).Nodup := by decide
  ⟨hz, hd, descriptor_names_distinct main_bundle hz hd⟩

/-- C16: for all lists `xs` and `ys` of `ObjectA` values whose names are shorter
than `2^64` bytes, if the payload the writer builds from `xs` equals the one it
builds from `ys` then `xs = ys`; and two such records with the same encoding
are equal. -/
theorem payload_uniquely_decodable (xs ys : List ObjectA)
    (hx : ∀ x ∈ xs, x.name.length < 18446744073709551616)
    (hy : ∀ y ∈ ys, y.name.length < 18446744073709551616) :
    (ObjectA.payload xs = ObjectA.payload ys → xs = ys) ∧
    (∀ x ∈ xs, ∀ y ∈ ys, (x.store_to_buffer []).1 = (y.store_to_buffer []).1 → x = y) := by
  constructor
  · induction xs generalizing ys with
    | nil =>
      intro h
      cases ys with
      | nil => rfl
      | cons y ys =>
        rw [ObjectA.payload_cons] at h
        exact absurd h.symm (ObjectA.store_to_buffer_ne_nil y _)
    | cons x xs ih =>
      intro h
      cases ys with
      | nil =>
        rw [ObjectA.payload_cons] at h
        exact absurd h (ObjectA.store_to_buffer_ne_nil x _)
      | cons y ys =>
        rw [ObjectA.payload_cons, ObjectA.payload_cons] at h
        obtain ⟨hxy, hrest⟩ := ObjectA.store_to_buffer_cancel x y _ _
          (hx x (List.mem_cons_self _ _)) (hy y (List.mem_cons_self _ _)) h
        have htail := ih ys (fun a ha => hx a (List.mem_cons_of_mem _ ha))
          (fun a ha => hy a (List.mem_cons_of_mem _ ha)) hrest
        rw [hxy, htail]
  · intro x hxm y hym h
    have h2 : (x.store_to_buffer []).1 ++ [] = (y.store_to_buffer []).1 ++ [] := by
      rw [h]
    exact (ObjectA.store_to_buffer_cancel x y [] [] (hx x hxm) (hy y hym) h2).1

/-- Witness of C16 at the vector `entities_a` of `main.cpp`. -/
theorem payload_uniquely_decodable_witness :
    (∀ x ∈ entities_a, x.name.length < 18446744073709551616) ∧
    (ObjectA.payload entities_a = ObjectA.payload entities_a → entities_a = entities_a) ∧
    (∀ x ∈ entities_a, ∀ y ∈ entities_a,
      (x.store_to_buffer []).1 = (y.store_to_buffer []).1 → x = y) :=
  have hx : ∀ x ∈ entities_a, x.name.length < 18446744073709551616 := by decide
  ⟨hx, payload_uniquely_decodable entities_a entities_a hx hx⟩

end EntitySerialization
